import Mathlib

/-!
Verification development for the rio sliding-window propagation/optimization
core (`src/gtsam/propagation.cpp`, `src/gtsam/optimization.cpp`).

Modelling conventions:
* `double` timestamps, accelerations and velocities are idealised as exact
  rationals (`ℚ`); the claims under study are about control flow, sequencing
  and counts, not floating-point rounding.
* `State::ConstPtr` entries of `Propagation::states_` are `Option State`
  (`none` models a null shared pointer).
* The gtsam preintegrator (`PreintegratedCombinedMeasurements`) is an external
  capability; it is modelled as the deterministic accumulation of the
  integrated `(acceleration, angular rate, dt)` triples together with the bias
  estimate, and `predict` as a deterministic Euler fold of that accumulation.
  The claims depend only on determinism of this component.
* C++ methods that mutate `*this` and return `bool` are modelled as functions
  returning `Bool × Propagation`; on the `false` paths the C++ code returns
  without touching `*this`, hence the model returns the input unchanged.
* A null-pointer dereference in the C++ (undefined behaviour) is modelled as
  an early failure; every such spot is marked with a comment.  No claim's
  statement exercises those paths.
-/

namespace Rio

/-- Three-component vector with exact rational entries (models `gtsam::Vector3`
/ `Eigen::Vector3d`). -/
structure Vec3 where
  x : ℚ
  y : ℚ
  z : ℚ
deriving DecidableEq

def Vec3.add (a b : Vec3) : Vec3 := ⟨a.x + b.x, a.y + b.y, a.z + b.z⟩

def Vec3.sub (a b : Vec3) : Vec3 := ⟨a.x - b.x, a.y - b.y, a.z - b.z⟩

def Vec3.scale (c : ℚ) (a : Vec3) : Vec3 := ⟨c * a.x, c * a.y, c * a.z⟩

/-- Squared Euclidean norm; used in place of `norm()` so that all arithmetic
stays in `ℚ` (`‖v‖ < r ↔ ‖v‖² < r²` for `r ≥ 0`). -/
def Vec3.normSq (a : Vec3) : ℚ := a.x * a.x + a.y * a.y + a.z * a.z

/-- IMU bias estimate (models `gtsam::imuBias::ConstantBias`). -/
structure Bias where
  acc : Vec3
  gyro : Vec3
deriving DecidableEq

/-- One inertial sample (models `sensor_msgs::msg::Imu`): header stamp and
frame id, linear acceleration, angular velocity. -/
structure Imu where
  stamp : ℚ
  frame_id : String
  lin_acc : Vec3
  ang_vel : Vec3
deriving DecidableEq

/-- Navigation state (models `gtsam::NavState`): position, orientation
(modelled additively), velocity. -/
structure NavState where
  p : Vec3
  R : Vec3
  v : Vec3
deriving DecidableEq

/-- Model of the opaque gtsam preintegrator
(`PreintegratedCombinedMeasurements`): the bias estimate together with the
ordered accumulation of integrated measurements since the last reset.  The
numeric integration scheme of the external library is opaque; only its
determinism matters to the claims. -/
structure Integrator where
  biasHat : Bias
  meas : List (Vec3 × Vec3 × ℚ)
deriving DecidableEq

def Integrator.integrateMeasurement (i : Integrator) (a w : Vec3) (dt : ℚ) :
    Integrator :=
  { i with meas := i.meas ++ [(a, w, dt)] }

/-- `resetIntegration`: clears the accumulated window, keeps the bias. -/
def Integrator.resetIntegration (i : Integrator) : Integrator :=
  { i with meas := [] }

/-- `resetIntegrationAndSetBias`: clears the accumulated window and installs a
new bias estimate. -/
def Integrator.resetIntegrationAndSetBias (i : Integrator) (b : Bias) :
    Integrator :=
  { i with biasHat := b, meas := [] }

/-- `predict(anchor, bias)`: deterministic stand-in for the external
preintegrator's prediction — an Euler fold of the accumulated measurements on
top of the anchor state. -/
def Integrator.predict (i : Integrator) (anchor : NavState) (bias : Bias) :
    NavState :=
  i.meas.foldl
    (fun s m =>
      { p := s.p.add (s.v.scale m.2.2),
        R := s.R.add ((m.2.1.sub bias.gyro).scale m.2.2),
        v := s.v.add ((m.1.sub bias.acc).scale m.2.2) })
    anchor

/-- Navigation state snapshot (models `rio::State`): frame id, position,
orientation, velocity, the inertial sample that produced it, the running
preintegrator, and the optional barometric height bias. -/
structure State where
  odom_frame_id : String
  I_p_IB : Vec3
  R_IB : Vec3
  I_v_IB : Vec3
  imu : Option Imu
  integrator : Integrator
  baro_height_bias : Option ℚ
deriving DecidableEq

def State.getNavState (s : State) : NavState :=
  { p := s.I_p_IB, R := s.R_IB, v := s.I_v_IB }

/-- One CFAR radar detection: position in the radar frame and measured
Doppler (radial) velocity. -/
structure CfarDetection where
  x : ℚ
  y : ℚ
  z : ℚ
  velocity : ℚ
deriving DecidableEq

/-- Models `rio::Propagation`: the ordered chain of state pointers between two
graph node indices, plus the optional per-split annotations.  The extrinsic
radar calibration `B_T_BR_` is kept only as a presence flag (its pose content
feeds the opaque factor expressions). -/
structure Propagation where
  states : List (Option State)
  first_state_idx : Nat
  last_state_idx : Option Nat
  cfar_detections : Option (List CfarDetection)
  B_T_BR : Option Unit
deriving DecidableEq

/-- The three-argument C++ constructor (annotation members default to
`nullopt`). -/
def Propagation.ofStates (states : List (Option State)) (first : Nat)
    (last : Option Nat) : Propagation :=
  { states := states, first_state_idx := first, last_state_idx := last,
    cfar_detections := none, B_T_BR := none }

/-- The single-state C++ constructor. -/
def Propagation.ofState (s : State) (first : Nat) (last : Option Nat) :
    Propagation :=
  Propagation.ofStates [some s] first last

def Propagation.getFirstStateIdx (p : Propagation) : Nat := p.first_state_idx

def Propagation.getLastStateIdx (p : Propagation) : Option Nat :=
  p.last_state_idx

/-- `getFirstState`: `states_.front()`; `none` covers both the empty chain and
a null front pointer. -/
def Propagation.getFirstState (p : Propagation) : Option State :=
  p.states.head?.join

/-- `getLatestState`: `states_.back()`. -/
def Propagation.getLatestState (p : Propagation) : Option State :=
  p.states.getLast?.join

/-- `Propagation::addImuMeasurement` (propagation.cpp:65–100).  The C++
mutates `*this` and returns `bool`; modelled as `Bool × Propagation`, where
every `false` path returns the receiver unchanged exactly as the C++ returns
without mutating.  The message pointer may be null (`none`); the C++ only
dereferences it after the chain checks, where a null message would be
undefined behaviour — modelled as failure at that point. -/
def Propagation.addImuMeasurement (p : Propagation) (msg : Option Imu) :
    Bool × Propagation :=
  match p.states.head? with
  | none => (false, p)        -- "No initial state, skipping IMU integration."
  | some none => (false, p)   -- "Initial state not complete ..."
  | some (some front) =>
    match p.states.getLast? with
    | none => (false, p)      -- unreachable: the chain is non-empty
    | some none => (false, p) -- null back pointer: C++ dereference (UB)
    | some (some back) =>
      match back.imu with
      | none => (false, p)    -- "Previous IMU measurement not complete ..."
      | some prevImu =>
        match msg with
        | none => (false, p)  -- null message: C++ dereference (UB)
        | some m =>
          let dt := m.stamp - prevImu.stamp
          if dt < 0 then (false, p)       -- "Negative dt ..."
          else if dt = 0 then (false, p)  -- "Zero dt ..."
          else
            let integrator :=
              back.integrator.integrateMeasurement m.lin_acc m.ang_vel dt
            let prediction :=
              integrator.predict front.getNavState integrator.biasHat
            (true,
             { p with
               states := p.states ++
                 [some { odom_frame_id := back.odom_frame_id,
                         I_p_IB := prediction.p,
                         R_IB := prediction.R,
                         I_v_IB := prediction.v,
                         imu := some m,
                         integrator := integrator,
                         baro_height_bias := back.baro_height_bias }] })

/-- The `std::lower_bound` comparator of `Propagation::split`
(propagation.cpp:121–125): `state->imu->header.stamp < t`.  A null state or
null sample pointer would be dereferenced by the C++ (UB); the model fixes an
arbitrary value (`true`) there — no claim exercises it. -/
def stateStampLt (os : Option State) (t : ℚ) : Bool :=
  match os with
  | none => true
  | some s =>
    match s.imu with
    | none => true
    | some m => decide (m.stamp < t)

/-- The `Propagation::repropagate` replay loop (propagation.cpp:190–195):
`addImuMeasurement((*it)->imu)` over the remaining buffered states, returning
`none` as soon as one call fails (the C++ `return false`).  A null `*it` would
be dereferenced (UB); modelled as passing a null message, which the callee
rejects. -/
def Propagation.replay (q : Propagation) :
    List (Option State) → Option Propagation
  | [] => some q
  | os :: rest =>
    match q.addImuMeasurement (os.bind State.imu) with
    | (true, q') => Propagation.replay q' rest
    | (false, _) => none

/-- `Propagation::repropagate` (propagation.cpp:181–199): replays every
buffered sample after the first state onto a scratch propagation built from
the reset initial state, aborting on the first failed integration; only a
complete rebuild is assigned back to `*this`.  On every `false` path the C++
leaves `*this` untouched, hence the model returns the receiver unchanged. -/
def Propagation.repropagate (p : Propagation) (initial_state : State) :
    Bool × Propagation :=
  match p.states with
  | [] => (false, p)  -- "No initial state, skipping repropagation."
  | _ :: rest =>
    let first_state :=
      { initial_state with
        integrator := initial_state.integrator.resetIntegration }
    let start := Propagation.ofState first_state p.first_state_idx
      p.last_state_idx
    match Propagation.replay start rest with
    | none => (false, p)  -- "Failed to add IMU message during repropagation."
    | some q => (true, q)

/-- `Propagation::split` (propagation.cpp:102–179).  The method is `const` on
the source propagation; outputs and the incremented node counter are returned.
`std::lower_bound` over the (by invariant, time-sorted) chain returns the
first element whose stamp is not `< t`; on a partitioned range this is exactly
the `takeWhile`/`dropWhile` boundary. -/
def Propagation.split (p : Propagation) (t : ℚ) (split_idx : Nat) :
    Option (Propagation × Propagation × Nat) :=
  match p.states.head? with
  | none => none        -- "No initial state, skipping split."
  | some none => none   -- "Initial state not complete, skipping split."
  | some (some front) =>
    match front.imu with
    | none => none      -- C++ dereferences front->imu here (UB)
    | some frontImu =>
      if t < frontImu.stamp then none  -- "t is before first IMU measurement"
      else
        match p.states.getLast?.join with
        | none => none  -- null back pointer: C++ dereference (UB)
        | some back =>
          match back.imu with
          | none => none  -- C++ dereferences back->imu here (UB)
          | some backImu =>
            if t > backImu.stamp then none  -- "t is after last IMU measurement"
            else
              let before := p.states.takeWhile (fun os => stateStampLt os t)
              let after := p.states.dropWhile (fun os => stateStampLt os t)
              match before.getLast? with
              | none => none  -- state_1 == begin: "Failed to find IMU measurement after t"
              | some state0? =>
                match after.head? with
                | none => none  -- state_1 == end: "Failed to find IMU measurement before t"
                | some state1? =>
                  match state0?, state1? with
                  | some state0, some state1 =>
                    match state0.imu, state1.imu with
                    | some imu0, some imu1 =>
                      -- ZOH IMU message propagating to exactly t.
                      let zoh : Imu :=
                        { stamp := t, frame_id := imu1.frame_id,
                          lin_acc := imu1.lin_acc,
                          ang_vel := imu1.ang_vel }
                      let toT0 := Propagation.ofStates before
                        p.first_state_idx (some split_idx)
                      -- the bool result of addImuMeasurement is discarded
                      let toT := if t > imu0.stamp then
                          (toT0.addImuMeasurement (some zoh)).2
                        else toT0
                      if t < imu1.stamp then
                        -- regenerate the propagation from t
                        match toT.getLatestState with
                        | none => none  -- null latest pointer: C++ dereference (UB)
                        | some latest =>
                          let initial_state : State :=
                            { odom_frame_id := latest.odom_frame_id,
                              I_p_IB := latest.I_p_IB,
                              R_IB := latest.R_IB,
                              I_v_IB := latest.I_v_IB,
                              imu := latest.imu,
                              integrator :=
                                latest.integrator.resetIntegrationAndSetBias
                                  latest.integrator.biasHat,
                              baro_height_bias := latest.baro_height_bias }
                          let start := Propagation.ofState initial_state
                            split_idx p.last_state_idx
                          -- loop: addImuMeasurement((*it)->imu), result discarded
                          let fromT := after.foldl
                            (fun q os =>
                              (q.addImuMeasurement (os.bind State.imu)).2)
                            start
                          some (toT, fromT, split_idx + 1)
                      else
                        some (toT,
                          Propagation.ofStates after split_idx
                            p.last_state_idx,
                          split_idx + 1)
                    | _, _ => none  -- null sample pointers: C++ dereference (UB)
                  | _, _ => none    -- null state pointers: C++ dereference (UB)

/-! ## Optimization coordinator (optimization.cpp) -/

/-- A factor added to the pending graph increment.  The claims under study only
count Doppler factors; the factor's gtsam expression tree is opaque and is
summarised by the node index and the measured Doppler value. -/
inductive Factor
  | doppler (idx : Nat) (z : ℚ)
deriving DecidableEq

/-- The by-value arguments captured by the background thread at `solve` time
(optimization.cpp:304–305): deep copies of the pending increment and of the
caller's propagation deque. -/
structure SolveTask where
  graph : List Factor
  values : List (Nat × ℚ)
  stamps : List (Nat × ℚ)
  propagations : List Propagation
deriving DecidableEq

/-- Pose/velocity/bias estimate returned by the opaque smoother for one node
index. -/
structure SolvedEstimate where
  pose_p : Vec3
  pose_R : Vec3
  vel : Vec3
  bias : Bias

/-- Outcome of the opaque smoother calls inside `solveThreaded`: an exception
in `update`, an exception in `calculateEstimate`, or success carrying the new
estimate (per node index; `none` models `Values::at` throwing on a missing
key) and the marginalization horizon (the smoother's smallest retained
timestamp). -/
inductive SolverOutcome
  | updateFail
  | estimateFail
  | ok (estimate : Nat → Option SolvedEstimate) (horizon : ℚ)

/-- Coordinator state (the members of `rio::Optimization`):
the pending graph increment (`new_graph_`, `new_values_`, `new_timestamps_`),
the lock-protected result bundle (`new_result_`, `propagations_`), the atomic
`running_` flag, and whether `thread_` holds an unjoined thread
(`thread_.joinable()`).  Timing instrumentation is not modelled. -/
structure Optimization where
  new_graph : List Factor
  new_values : List (Nat × ℚ)
  new_timestamps : List (Nat × ℚ)
  new_result : Bool
  propagations : List Propagation
  running : Bool
  joinable : Bool
deriving DecidableEq

/-- The default-constructed coordinator (`Optimization(){}` with the member
initializers of optimization.h): empty increment, no result, no thread. -/
def Optimization.mkIdle : Optimization :=
  { new_graph := [], new_values := [], new_timestamps := [],
    new_result := false, propagations := [], running := false,
    joinable := false }

/-- `Optimization::addDopplerFactors` (optimization.cpp:107–163) restricted to
its effect on `new_graph_` (the optional residual debug output is not
modelled).  Each detection closer than 0.1 m is skipped (`continue`); every
other detection adds exactly one expression factor.  `‖v‖ < 0.1` is expressed
as `‖v‖² < 1/100`. -/
def Optimization.addDopplerFactors (p : Propagation)
    (graph : List Factor) : List Factor :=
  match p.getLastStateIdx with
  | none => graph       -- "Propagation has no last state index ..."
  | some idx =>
    match p.cfar_detections with
    | none => graph     -- "Propagation has no CFAR detections ..."
    | some detections =>
      match p.B_T_BR with
      | none => graph   -- "Propagation has no B_t_BR ..."
      | some _ =>
        match p.getLatestState with
        | none => graph -- null latest pointer: C++ dereference (UB)
        | some state =>
          match state.imu with
          | none => graph  -- C++ dereferences state->imu here (UB)
          | some _ =>
            graph ++ detections.filterMap (fun d =>
              if Vec3.normSq ⟨d.x, d.y, d.z⟩ < 1 / 100 then
                none  -- "Radar point is too close to radar." (continue)
              else
                some (Factor.doppler idx d.velocity))

/-- `Optimization::solve` (optimization.cpp:293–311).  Returns the C++ result,
the coordinator's new state, and the by-value task handed to the spawned
thread (`none` when no thread was started).  Rejected while the thread is
running or while a finished thread has not been joined; on acceptance the
increment is copied into the task and then cleared. -/
def Optimization.solve (o : Optimization) (propagations : List Propagation) :
    Bool × Optimization × Option SolveTask :=
  if o.running then (false, o, none)       -- "Optimization thread still running."
  else if o.joinable then (false, o, none) -- "... not joined, get result first."
  else
    (true,
     { o with running := true, joinable := true,
              new_graph := [], new_values := [], new_timestamps := [] },
     some { graph := o.new_graph, values := o.new_values,
            stamps := o.new_timestamps, propagations := propagations })

/-- The repropagation loop of `solveThreaded` (optimization.cpp:428–452): for
each retained propagation, build a fresh initial state from the solved values
at its first node index and `repropagate`; any missing value (`Values::at`
throws) or failed repropagation aborts the whole task. -/
def solveThreadedRepropagate (estimate : Nat → Option SolvedEstimate) :
    List Propagation → Option (List Propagation)
  | [] => some []
  | p :: rest =>
    match p.getFirstState with
    | none => none  -- null first pointer: C++ dereference (UB)
    | some fs =>
      match estimate p.getFirstStateIdx with
      | none => none  -- "Exception in caching new values at idx ..."
      | some est =>
        let initial_state : State :=
          { odom_frame_id := fs.odom_frame_id,
            I_p_IB := est.pose_p,
            R_IB := est.pose_R,
            I_v_IB := est.vel,
            imu := fs.imu,
            integrator := fs.integrator.resetIntegrationAndSetBias est.bias,
            baro_height_bias := fs.baro_height_bias }
        match p.repropagate initial_state with
        | (false, _) => none  -- "Failed to repropagate."
        | (true, p') =>
          match solveThreadedRepropagate estimate rest with
          | none => none
          | some rest' => some (p' :: rest')

/-- The marginalization trim of `solveThreaded` (optimization.cpp:419–426):
pop propagations whose first state's stamp precedes the smoother's smallest
retained timestamp.  A null first state or sample pointer would be
dereferenced by the C++ (UB); the model stops trimming there. -/
def marginalizeTrim (horizon : ℚ) (props : List Propagation) :
    List Propagation :=
  props.dropWhile (fun p =>
    match p.getFirstState with
    | none => false
    | some s =>
      match s.imu with
      | none => false
      | some m => decide (m.stamp < horizon))

/-- `Optimization::solveThreaded` (optimization.cpp:392–474), parametrised by
the opaque smoother's outcome.  Any exception path stores `running_ = false`
and returns without publishing a result; the success path trims marginalized
propagations, repropagates the rest from the solved values, stores the solved
deque and raises `new_result_`. -/
def Optimization.solveThreaded (o : Optimization) (outcome : SolverOutcome)
    (task : SolveTask) : Optimization :=
  match outcome with
  | .updateFail => { o with running := false }   -- "Exception in update ..."
  | .estimateFail => { o with running := false } -- "Exception in calculateEstimate ..."
  | .ok estimate horizon =>
    let props := marginalizeTrim horizon task.propagations
    match solveThreadedRepropagate estimate props with
    | none => { o with running := false }  -- abort, no result published
    | some props' =>
      { o with propagations := props', new_result := true, running := false }

/-- The matching test of `getResult`'s replacement pass
(optimization.cpp:346–352): same first index and both last indices present and
equal. -/
def matchesEntry (q p : Propagation) : Bool :=
  q.getFirstStateIdx == p.getFirstStateIdx &&
  (match q.getLastStateIdx, p.getLastStateIdx with
   | some a, some b => a == b
   | _, _ => false)

/-- `std::find_if` over the cached deque, also reporting whether the match was
at `begin()` (which triggers the `pop_front` cleanup). -/
def findMatch (cached : List Propagation) (p : Propagation) :
    Option (Propagation × Bool) :=
  match cached with
  | [] => none
  | q :: rest =>
    if matchesEntry q p then some (q, true)
    else
      match findMatch rest p with
      | some (r, _) => some (r, false)
      | none => none

/-- The replacement pass of `getResult` (optimization.cpp:343–360): each deque
entry matching a cached solved entry is replaced by it and marked updated; a
match at the cached deque's front pops that front.  Returns the marked deque
and the remaining cached deque. -/
def collectUpdated (cached : List Propagation) :
    List Propagation → List (Propagation × Bool) × List Propagation
  | [] => ([], cached)
  | p :: rest =>
    match findMatch cached p with
    | some (q, atBegin) =>
      let cached' := if atBegin then cached.tail else cached
      let (tail, cachedF) := collectUpdated cached' rest
      ((q, true) :: tail, cachedF)
    | none =>
      let (tail, cachedF) := collectUpdated cached rest
      ((p, false) :: tail, cachedF)

/-- The repropagation pass of `getResult` (optimization.cpp:362–375): every
entry not replaced in the previous pass is repropagated from the preceding
entry's latest state; the first entry has no anchor and is left as-is, and a
failed repropagation leaves the entry unchanged and continues. -/
def repropagateRemaining (prev : Option Propagation) :
    List (Propagation × Bool) → List Propagation
  | [] => []
  | (p, updated) :: rest =>
    if updated then p :: repropagateRemaining (some p) rest
    else
      match prev with
      | none =>  -- "First propagation not updated, skipping."
        p :: repropagateRemaining (some p) rest
      | some pr =>
        match pr.getLatestState with
        | none =>  -- null latest pointer: C++ dereference (UB)
          p :: repropagateRemaining (some p) rest
        | some anchor =>
          match p.repropagate anchor with
          | (true, p') => p' :: repropagateRemaining (some p') rest
          | (false, _) =>  -- "Failed to repropagate." (continue)
            p :: repropagateRemaining (some p) rest

/-- `Optimization::getResult` (optimization.cpp:313–390) restricted to the
deque and coordinator state (timing output is not modelled).  Fails while the
thread runs; joins a finished thread; fails if no new result is buffered;
otherwise trims marginalized deque entries, replaces solved entries, and
repropagates the remainder.  The front trim compares against
`propagations_.front()`, which the C++ dereferences even when the cached deque
is empty (UB); the model drains the deque there. -/
def Optimization.getResult (o : Optimization) (deque : List Propagation) :
    Bool × Optimization × List Propagation :=
  if o.running then (false, o, deque)  -- "Optimization thread still running."
  else if o.joinable then
    let o1 := { o with joinable := false }  -- thread_.join()
    if !o1.new_result then (false, o1, deque)  -- "No new result."
    else
      let o2 := { o1 with new_result := false }
      let deque1 :=
        match o2.propagations.head? with
        | none => []  -- propagations_.front() on empty deque (UB)
        | some tgt =>
          deque.dropWhile (fun p =>
            p.getFirstStateIdx != tgt.getFirstStateIdx)
      let (marked, cached') := collectUpdated o2.propagations deque1
      let deque2 := repropagateRemaining none marked
      (true, { o2 with propagations := cached' }, deque2)
  else (false, o, deque)  -- "Optimization thread is still running, skipping result."

/-! ## Helper definitions for the theorem statements -/

/-- The timestamp carried by one chain entry (`none` when the entry or its
sample pointer is null). -/
def stampOfEntry (os : Option State) : Option ℚ :=
  os.bind (fun s => s.imu.map Imu.stamp)

/-- The timestamp sequence of a state chain. -/
def chainStamps (l : List (Option State)) : List (Option ℚ) :=
  l.map stampOfEntry

/-- The boundary-insertion shape produced by a successful split: the original
timestamps strictly before `t`, then `t`, then the original timestamps
strictly after `t` (a timestamp equal to `t` is absorbed into the boundary,
i.e. no extra sample appears). -/
def insertBoundary (t : ℚ) (stamps : List ℚ) : List ℚ :=
  stamps.takeWhile (fun s => decide (s < t)) ++
    t :: stamps.dropWhile (fun s => decide (s ≤ t))

/-! ## Helper lemmas -/

theorem addImuMeasurement_success (q : Propagation) (f b : State) (mb m : Imu)
    (hh : q.states.head? = some (some f))
    (hl : q.states.getLast? = some (some b))
    (hb : b.imu = some mb)
    (hlt : mb.stamp < m.stamp) :
    ∃ st : State, st.imu = some m ∧
      q.addImuMeasurement (some m) =
        (true, { q with states := q.states ++ [some st] }) := by
  have h1 : ¬ (m.stamp - mb.stamp < 0) := by linarith
  have h2 : ¬ (m.stamp - mb.stamp = 0) := by
    intro h
    have : m.stamp = mb.stamp := by linarith
    exact absurd (this ▸ hlt) (lt_irrefl _)
  simp only [Propagation.addImuMeasurement, hh, hl, hb, if_neg h1, if_neg h2]
  exact ⟨_, rfl, rfl⟩

/-- Workhorse: replaying a list of non-null states whose samples have strictly
increasing timestamps (all later than the chain's latest sample) succeeds at
every step; the fail-fast `replay` loop and the result-discarding `foldl`
produce the same extension of the chain, one new state per sample, each new
state carrying its sample. -/
theorem replay_fold_corr :
    ∀ (stsL : List State) (msL : List Imu) (q : Propagation) (f b : State)
      (mb : Imu),
      stsL.map State.imu = msL.map some →
      q.states.head? = some (some f) →
      q.states.getLast? = some (some b) →
      b.imu = some mb →
      List.Chain' (· < ·) (mb.stamp :: msL.map Imu.stamp) →
      ∃ news : List State,
        news.map State.imu = msL.map some ∧
        Propagation.replay q (stsL.map some) =
          some { q with states := q.states ++ news.map some } ∧
        (stsL.map some).foldl
          (fun r os => (r.addImuMeasurement (os.bind State.imu)).2) q =
          { q with states := q.states ++ news.map some }
  | [], msL, q, f, b, mb, him, hh, hl, hb, hch => by
    cases msL with
    | nil =>
      refine ⟨[], rfl, ?_, ?_⟩ <;> simp [Propagation.replay]
    | cons m msL' => simp at him
  | s :: stsL', msL, q, f, b, mb, him, hh, hl, hb, hch => by
    cases msL with
    | nil => simp at him
    | cons m msL' =>
      simp only [List.map_cons, List.cons.injEq] at him
      obtain ⟨hsm, him'⟩ := him
      rw [List.map_cons, List.chain'_cons] at hch
      obtain ⟨hmb, hch'⟩ := hch
      obtain ⟨st, hstm, hadd⟩ := addImuMeasurement_success q f b mb m hh hl hb hmb
      set q' : Propagation := { q with states := q.states ++ [some st] } with hq'
      have hh' : q'.states.head? = some (some f) := by
        simp [hq', List.head?_append, hh]
      have hl' : q'.states.getLast? = some (some st) := by
        simp [hq', List.getLast?_concat]
      obtain ⟨news, hnews, hreplay, hfold⟩ :=
        replay_fold_corr stsL' msL' q' f st m him' hh' hl' hstm hch'
      refine ⟨st :: news, by simp [hstm, hnews], ?_, ?_⟩
      · simp only [List.map_cons, Propagation.replay, Option.bind_some,
          Option.some_bind, hsm, hadd]
        rw [hreplay]
        simp [hq', List.append_assoc]
      · simp only [List.map_cons, List.foldl_cons, Option.some_bind, hsm, hadd]
        rw [hfold]
        simp [hq', List.append_assoc]

/-- Modelled from the spec (§4.1 `repropagate`, §8 property 1): the State
sequence obtained by constructing a propagation from the given initial state
with its preintegration window reset (bias retained) and calling
`addImuMeasurement` sequentially with each originally buffered sample. -/
def sequentialRebuild (p : Propagation) (initial : State) : Propagation :=
  let first :=
    { initial with integrator := initial.integrator.resetIntegration }
  (p.states.drop 1).foldl
    (fun q os => (q.addImuMeasurement (os.bind State.imu)).2)
    (Propagation.ofState first p.first_state_idx p.last_state_idx)

/-! ## Concrete example values (shared by witnesses and counterexamples) -/

def exBias : Bias := { acc := ⟨0, 0, 0⟩, gyro := ⟨0, 0, 0⟩ }

def exIntegrator : Integrator := { biasHat := exBias, meas := [] }

/-- An inertial sample at time `t` with acceleration `(ax, 0, 0)` and angular
rate `(0, 0, wz)`. -/
def exImu (t ax wz : ℚ) : Imu :=
  { stamp := t, frame_id := "imu", lin_acc := ⟨ax, 0, 0⟩,
    ang_vel := ⟨0, 0, wz⟩ }

def exState0 : State :=
  { odom_frame_id := "odom", I_p_IB := ⟨0, 0, 0⟩, R_IB := ⟨0, 0, 0⟩,
    I_v_IB := ⟨0, 0, 0⟩, imu := some (exImu 0 1 1),
    integrator := exIntegrator, baro_height_bias := none }

def exProp1 : Propagation := Propagation.ofState exState0 0 none

/-- A propagation holding three inertial samples at t = 0, 1, 2 with distinct
readings. -/
def exProp3 : Propagation :=
  ((exProp1.addImuMeasurement (some (exImu 1 2 2))).2.addImuMeasurement
    (some (exImu 2 3 3))).2

/-! ## Claim C1 -/

/-- **C1.** For every inertial sample sequence with strictly increasing
timestamps, `repropagate(initialState)` on a non-empty propagation produces
exactly the State sequence obtained by constructing a propagation from that
same initial state (preintegration window reset, bias retained) and calling
`addImuMeasurement` sequentially with each originally buffered sample —
identical bit-for-bit on the integrated quantities (here: Lean equality of
the resulting `State` structures). -/
theorem repropagate_refines_sequentialRebuild (p : Propagation)
    (initial s0 : State) (stsL : List State) (msL : List Imu) (mi : Imu)
    (hst : p.states = some s0 :: stsL.map some)
    (him : stsL.map State.imu = msL.map some)
    (hini : initial.imu = some mi)
    (hch : List.Chain' (· < ·) (mi.stamp :: msL.map Imu.stamp)) :
    p.repropagate initial = (true, sequentialRebuild p initial) := by
  have hfirst :
      ({ initial with
         integrator := initial.integrator.resetIntegration } : State).imu =
        some mi := hini
  obtain ⟨news, hnews, hreplay, hfold⟩ :=
    replay_fold_corr stsL msL
      (Propagation.ofState
        { initial with integrator := initial.integrator.resetIntegration }
        p.first_state_idx p.last_state_idx)
      _ _ mi him rfl rfl hfirst hch
  simp only [Propagation.repropagate, sequentialRebuild, hst, List.drop_succ_cons,
    List.drop_zero, hreplay, hfold]

/-- Witness for C1 at the concrete three-sample propagation `exProp3`. -/
theorem repropagate_refines_sequentialRebuild_witness :
    exProp3.repropagate exState0 = (true, sequentialRebuild exProp3 exState0) :=
  repropagate_refines_sequentialRebuild exProp3 exState0 exState0
    exProp3.states.tail.reduceOption [exImu 1 2 2, exImu 2 3 3] (exImu 0 1 1)
    (by norm_num [exProp3, exProp1, Propagation.ofState, Propagation.ofStates,
      exState0, exImu, Propagation.addImuMeasurement,
      Integrator.integrateMeasurement, Integrator.predict, State.getNavState,
      exIntegrator, exBias, Vec3.add, Vec3.sub, Vec3.scale,
      List.reduceOption, List.filterMap_cons, id_eq])
    (by norm_num [exProp3, exProp1, Propagation.ofState, Propagation.ofStates,
      exState0, exImu, Propagation.addImuMeasurement,
      Integrator.integrateMeasurement, Integrator.predict, State.getNavState,
      exIntegrator, exBias, Vec3.add, Vec3.sub, Vec3.scale,
      List.reduceOption, List.filterMap_cons, id_eq])
    rfl
    (by norm_num [exImu, List.chain'_cons, List.chain'_singleton])

/-! ## More concrete example values -/

/-- A state whose sample is at time `t` with readings `(ax, 0, 0)` /
`(0, 0, ax)` and an empty preintegration window. -/
def exSt (t ax : ℚ) : State :=
  { odom_frame_id := "odom", I_p_IB := ⟨0, 0, 0⟩, R_IB := ⟨0, 0, 0⟩,
    I_v_IB := ⟨0, 0, 0⟩, imu := some (exImu t ax ax),
    integrator := exIntegrator, baro_height_bias := none }

/-- A literal well-formed three-state chain with samples at t = 0, 1, 2. -/
def exChain3 : Propagation :=
  Propagation.ofStates [some (exSt 0 1), some (exSt 1 2), some (exSt 2 3)]
    0 none

/-- A chain whose second sample repeats the first timestamp (replaying it
fails with `dt = 0`). -/
def exChainDup : Propagation :=
  Propagation.ofStates [some (exSt 0 1), some (exSt 0 1)] 0 none

/-! ## Claim C8 -/

/-- **C8.** `addImuMeasurement` returns failure and leaves the chain's state
sequence unchanged whenever the chain is empty, the front State is null, the
latest State's previous sample is missing, or the new sample's `dt` against
the chain's latest sample satisfies `dt ≤ 0`; otherwise (on a well-formed
chain) it returns success and appends exactly one new State. -/
theorem addImuMeasurement_error_handling (p : Propagation) (msg : Option Imu) :
    (p.states = [] → p.addImuMeasurement msg = (false, p)) ∧
    (p.states.head? = some none → p.addImuMeasurement msg = (false, p)) ∧
    (∀ f b, p.states.head? = some (some f) →
      p.states.getLast? = some (some b) → b.imu = none →
      p.addImuMeasurement msg = (false, p)) ∧
    (∀ f b mb m, p.states.head? = some (some f) →
      p.states.getLast? = some (some b) → b.imu = some mb → msg = some m →
      m.stamp - mb.stamp ≤ 0 → p.addImuMeasurement msg = (false, p)) ∧
    (∀ f b mb m, p.states.head? = some (some f) →
      p.states.getLast? = some (some b) → b.imu = some mb → msg = some m →
      0 < m.stamp - mb.stamp →
      ∃ st, p.addImuMeasurement msg =
        (true, { p with states := p.states ++ [some st] })) := by
  refine ⟨?_, ?_, ?_, ?_, ?_⟩
  · intro h; simp [Propagation.addImuMeasurement, h]
  · intro h; simp [Propagation.addImuMeasurement, h]
  · intro f b hh hl hb
    simp [Propagation.addImuMeasurement, hh, hl, hb]
  · intro f b mb m hh hl hb hm hdt
    rcases lt_or_eq_of_le hdt with h | h
    · simp [Propagation.addImuMeasurement, hh, hl, hb, hm, h]
    · simp [Propagation.addImuMeasurement, hh, hl, hb, hm, ← h]
  · intro f b mb m hh hl hb hm hdt
    obtain ⟨st, _, heq⟩ :=
      addImuMeasurement_success p f b mb m hh hl hb (by linarith)
    exact ⟨st, hm ▸ heq⟩

/-- Witness for C8: the empty chain, a `dt = 0` rejection, and a successful
append on a literal chain. -/
theorem addImuMeasurement_error_handling_witness :
    (Propagation.ofStates [] 0 none).addImuMeasurement none =
        (false, Propagation.ofStates [] 0 none) ∧
    exChain3.addImuMeasurement (some (exImu 2 9 9)) = (false, exChain3) ∧
    (∃ st, exChain3.addImuMeasurement (some (exImu 3 9 9)) =
        (true, { exChain3 with
                 states := exChain3.states ++ [some st] })) := by
  refine ⟨(addImuMeasurement_error_handling _ none).1 rfl, ?_, ?_⟩
  · exact (addImuMeasurement_error_handling exChain3 _).2.2.2.1
      (exSt 0 1) (exSt 2 3) (exImu 2 3 3) (exImu 2 9 9) rfl rfl rfl rfl
      (by norm_num [exImu])
  · exact (addImuMeasurement_error_handling exChain3 _).2.2.2.2
      (exSt 0 1) (exSt 2 3) (exImu 2 3 3) (exImu 3 9 9) rfl rfl rfl rfl
      (by norm_num [exImu])

/-! ## Claim C6 -/

/-- **C6.** `repropagate` is atomic on failure: if the source chain is empty,
or any replayed sample fails to integrate, it returns failure and the
propagation's entire prior content is left exactly as it was (the rebuild
happens in a scratch propagation swapped in only after a full successful
replay). -/
theorem repropagate_atomic (p : Propagation) (initial : State) :
    ((p.repropagate initial).1 = false → (p.repropagate initial).2 = p) ∧
    (p.states = [] → (p.repropagate initial).1 = false) := by
  constructor
  · intro h
    cases hst : p.states with
    | nil => simp [Propagation.repropagate, hst]
    | cons s rest =>
      simp only [Propagation.repropagate, hst] at h ⊢
      cases hr : Propagation.replay
          (Propagation.ofState
            { initial with
              integrator := initial.integrator.resetIntegration }
            p.first_state_idx p.last_state_idx) rest with
      | none => simp [hr]
      | some q => simp [hr] at h
  · intro h; simp [Propagation.repropagate, h]

/-- Witness for C6: the empty chain and a chain whose replay fails on a
duplicated timestamp (`dt = 0`); both leave the propagation unchanged. -/
theorem repropagate_atomic_witness :
    ((Propagation.ofStates [] 0 none).repropagate (exSt 0 1)).1 = false ∧
    ((Propagation.ofStates [] 0 none).repropagate (exSt 0 1)).2 =
      Propagation.ofStates [] 0 none ∧
    (exChainDup.repropagate (exSt 0 1)).2 = exChainDup := by
  refine ⟨(repropagate_atomic _ (exSt 0 1)).2 rfl, ?_, ?_⟩
  · exact (repropagate_atomic _ (exSt 0 1)).1
      ((repropagate_atomic _ (exSt 0 1)).2 rfl)
  · exact (repropagate_atomic exChainDup (exSt 0 1)).1
      (by norm_num [exChainDup, Propagation.repropagate, Propagation.replay,
        Propagation.ofState, Propagation.ofStates, exSt, exImu,
        Propagation.addImuMeasurement, Integrator.resetIntegration,
        exIntegrator, exBias, State.imu])

/-! ## Claim C9 -/

/-- **C9.** `split(t)` returns failure when the chain is empty, the front
State is incomplete, or `t` lies outside `[first.t, last.t]` (the source
propagation is `const`, so its state count is structurally unchanged, and the
counter is returned unchanged only through the absent success value); on every
successful split the returned global counter is the old counter incremented
exactly once. -/
theorem split_error_handling (p : Propagation) (t : ℚ) (c : Nat) :
    (p.states = [] → p.split t c = none) ∧
    (p.states.head? = some none → p.split t c = none) ∧
    (∀ f mf, p.states.head? = some (some f) → f.imu = some mf →
      t < mf.stamp → p.split t c = none) ∧
    (∀ f mf b mb, p.states.head? = some (some f) → f.imu = some mf →
      p.states.getLast?.join = some b → b.imu = some mb →
      mb.stamp < t → p.split t c = none) ∧
    (∀ toT fromT c', p.split t c = some (toT, fromT, c') → c' = c + 1) := by
  refine ⟨?_, ?_, ?_, ?_, ?_⟩
  · intro h; simp [Propagation.split, h]
  · intro h; simp [Propagation.split, h]
  · intro f mf hh hf hlt
    simp [Propagation.split, hh, hf, hlt]
  · intro f mf b mb hh hf hl hb hgt
    by_cases hlt : t < mf.stamp
    · simp [Propagation.split, hh, hf, hlt]
    · have hl' : (p.states.getLast?.bind fun a => a) = some b := by
        simpa [Option.join] using hl
      simp [Propagation.split, hh, hf, hlt, hl', hb, hgt]
  · intro toT fromT c' h
    simp only [Propagation.split] at h
    repeat (any_goals (split at h))
    all_goals simp_all

/-- Witness for C9: the empty chain fails, and `t = 5` beyond the last sample
of the literal chain (t = 0, 1, 2) fails. -/
theorem split_error_handling_witness :
    (Propagation.ofStates [] 0 none).split 1 0 = none ∧
    exChain3.split 5 0 = none := by
  refine ⟨(split_error_handling _ 1 0).1 rfl, ?_⟩
  exact (split_error_handling exChain3 5 0).2.2.2.1
    (exSt 0 1) (exImu 0 1 1) (exSt 2 3) (exImu 2 3 3) rfl rfl rfl rfl
    (by norm_num [exImu])

/-! ## Claim C10 -/

/-- **C10.** For a non-empty, complete propagation with at least two states,
`split(t)` with `t` exactly the first State's timestamp returns failure (the
time-ordered search finds no State strictly before `t`), with no counter
increment (no success value is produced), even though `t` lies within
`[first.t, last.t]`. -/
theorem split_at_first_timestamp_fails (p : Propagation) (s0 b : State)
    (m0 mb : Imu) (c : Nat)
    (hh : p.states.head? = some (some s0))
    (_hlen : 2 ≤ p.states.length)
    (h0 : s0.imu = some m0)
    (hl : p.states.getLast?.join = some b)
    (hb : b.imu = some mb)
    (hle : m0.stamp ≤ mb.stamp) :
    p.split m0.stamp c = none := by
  cases hst : p.states with
  | nil => simp [hst] at hh
  | cons a rest =>
    rw [hst] at hh
    simp only [List.head?_cons, Option.some.injEq] at hh
    subst hh
    rw [hst] at hl
    simp only [Propagation.split, hst, List.head?_cons, h0,
      if_neg (lt_irrefl m0.stamp), hl, hb, if_neg (not_lt.2 hle)]
    have hpred : stateStampLt (some s0) m0.stamp = false := by
      simp [stateStampLt, h0]
    simp [List.takeWhile_cons, hpred]

/-- Witness for C10 at the literal chain with samples at t = 0, 1, 2. -/
theorem split_at_first_timestamp_fails_witness :
    exChain3.split (exImu 0 1 1).stamp 4 = none :=
  split_at_first_timestamp_fails exChain3 (exSt 0 1) (exSt 2 3)
    (exImu 0 1 1) (exImu 2 3 3) 4 rfl (by norm_num [exChain3,
      Propagation.ofStates]) rfl rfl rfl (by norm_num [exImu])

/-! ## Claim C5 -/

/-- **C5.** On the propagation holding three inertial samples at t = 0, 1, 2,
`split(1.5)` succeeds and yields: a "to" propagation with samples at t = 0, 1,
1.5, whose t = 1.5 sample is synthetic — the t = 2 sample's acceleration and
angular-rate readings with the timestamp overwritten to 1.5; a "from"
propagation whose first state is at t = 1.5 with the preintegration window
reset and the bias retained, and which continues with the original t = 2
sample; the node counter is incremented exactly once (5 → 6) and the "to" /
"from" propagations carry the boundary index 5. -/
theorem split_three_sample_scenario :
    (exProp3.split (3 / 2) 5).map (fun x => chainStamps x.1.states) =
        some [some 0, some 1, some (3 / 2)] ∧
    (exProp3.split (3 / 2) 5).map
        (fun x => x.1.states.getLast?.join.bind State.imu) =
      some (some { exImu 2 3 3 with stamp := 3 / 2 }) ∧
    (exProp3.split (3 / 2) 5).map (fun x => chainStamps x.2.1.states) =
      some [some (3 / 2), some 2] ∧
    (exProp3.split (3 / 2) 5).map (fun x =>
        x.2.1.states.head?.join.map
          (fun s => (s.integrator.meas, s.integrator.biasHat))) =
      some (some ([], exBias)) ∧
    (exProp3.split (3 / 2) 5).map
        (fun x => x.2.1.states.getLast?.join.bind State.imu) =
      some (some (exImu 2 3 3)) ∧
    (exProp3.split (3 / 2) 5).map (fun x => x.2.2) = some 6 ∧
    (exProp3.split (3 / 2) 5).map (fun x =>
        (x.1.first_state_idx, x.1.last_state_idx,
         x.2.1.first_state_idx, x.2.1.last_state_idx)) =
      some (0, some 5, 5, none) := by
  norm_num [exProp3, exProp1, Propagation.ofState, Propagation.ofStates,
    exState0, exImu, Propagation.addImuMeasurement,
    Integrator.integrateMeasurement, Integrator.predict, State.getNavState,
    exIntegrator, exBias, Vec3.add, Vec3.sub, Vec3.scale, Propagation.split,
    stateStampLt, List.takeWhile, List.dropWhile, Propagation.getLatestState,
    Integrator.resetIntegrationAndSetBias, chainStamps, stampOfEntry,
    State.imu]

/-! ## Helper lemmas for claim C2 -/

/-- A pairwise correspondence between a state list and its sample list
carries through `takeWhile` and `dropWhile`. -/
theorem corr_takeWhile_dropWhile (pstate : State → Bool) (pimu : Imu → Bool)
    (hp : ∀ s m, s.imu = some m → pstate s = pimu m) :
    ∀ (sts : List State) (ms : List Imu),
      sts.map State.imu = ms.map some →
      (sts.takeWhile pstate).map State.imu = (ms.takeWhile pimu).map some ∧
        (sts.dropWhile pstate).map State.imu = (ms.dropWhile pimu).map some
  | [], [] => by intro h; simp
  | [], m :: ms => by intro h; simp at h
  | s :: sts, [] => by intro h; simp at h
  | s :: sts, m :: ms => by
    intro h
    simp only [List.map_cons, List.cons.injEq] at h
    obtain ⟨hsm, h'⟩ := h
    obtain ⟨ht, hd⟩ := corr_takeWhile_dropWhile pstate pimu hp sts ms h'
    have hps : pstate s = pimu m := hp s m hsm
    by_cases hc : pimu m = true
    · simp [List.takeWhile_cons, List.dropWhile_cons, hps, hc, ht, hd, hsm]
    · simp only [Bool.not_eq_true] at hc
      simp [List.takeWhile_cons, List.dropWhile_cons, hps, hc, hsm, h']

/-- A correspondent state list's chain timestamps are exactly its samples'
stamps. -/
theorem chainStamps_of_corr {sts : List State} {ms : List Imu}
    (h : sts.map State.imu = ms.map some) :
    chainStamps (sts.map some) = (ms.map Imu.stamp).map some := by
  have h2 := congrArg (List.map (Option.map Imu.stamp)) h
  simpa [chainStamps, stampOfEntry, List.map_map, Function.comp_def] using h2

/-- `chainStamps` distributes over concatenation. -/
theorem chainStamps_append (l1 l2 : List (Option State)) :
    chainStamps (l1 ++ l2) = chainStamps l1 ++ chainStamps l2 := by
  simp [chainStamps]

set_option maxHeartbeats 1000000 in
/-- **C2 (amended).** For every non-empty, complete propagation and every time
`t` with `first.t < t ≤ last.t` (the claim's closed interval corrected to
exclude the left endpoint, where `split` fails — see the counterexample),
`split(t)` succeeds, incrementing the node counter exactly once, and the
concatenation of the "to" propagation's states and the "from" propagation's
states, counting the shared boundary state once, carries exactly the original
ordered timestamp sequence plus the inserted boundary sample at `t`; no
boundary sample is added to that concatenation when `t` coincides with an
existing sample's timestamp. -/
theorem split_timestamp_reconstruction (p : Propagation) (sts : List State)
    (ms : List Imu) (m0 mlast : Imu) (t : ℚ) (c : Nat)
    (hst : p.states = sts.map some)
    (him : sts.map State.imu = ms.map some)
    (hch : List.Chain' (· < ·) (ms.map Imu.stamp))
    (hhead : ms.head? = some m0)
    (hlast : ms.getLast? = some mlast)
    (ht0 : m0.stamp < t) (htl : t ≤ mlast.stamp) :
    ∃ toT fromT, p.split t c = some (toT, fromT, c + 1) ∧
      chainStamps toT.states =
        ((ms.map Imu.stamp).takeWhile (fun s => decide (s < t)) ++ [t]).map
          some ∧
      chainStamps fromT.states =
        (t :: (ms.map Imu.stamp).dropWhile (fun s => decide (s ≤ t))).map
          some ∧
      (t ∈ ms.map Imu.stamp →
        chainStamps toT.states ++ (chainStamps fromT.states).tail =
          (ms.map Imu.stamp).map some) ∧
      (t ∉ ms.map Imu.stamp →
        chainStamps toT.states ++ (chainStamps fromT.states).tail =
          ((ms.map Imu.stamp).takeWhile (fun s => decide (s < t)) ++
            t :: (ms.map Imu.stamp).dropWhile
              (fun s => decide (s < t))).map some) := by
  classical
  -- decompose the head of the chain
  rcases ms with _ | ⟨m0', ms'⟩
  · simp at hhead
  obtain rfl : m0 = m0' := by simpa using hhead.symm
  rcases sts with _ | ⟨s0, sts'⟩
  · simp at him
  have him0 : s0.imu = some m0 := by
    simpa using congrArg List.head? him
  -- predicates on states and samples
  set pim : Imu → Bool := fun m => decide (m.stamp < t) with hpim
  set pst : State → Bool := fun s => stateStampLt (some s) t with hpst
  have hp : ∀ s m, s.imu = some m → pst s = pim m := by
    intro s m h; simp [hpst, hpim, stateStampLt, h]
  obtain ⟨htw, hdw⟩ :=
    corr_takeWhile_dropWhile pst pim hp (s0 :: sts') (m0 :: ms') him
  -- the takeWhile part is non-empty
  have hm0 : pim m0 = true := by simp [hpim]; exact ht0
  have hs0 : pst s0 = true := by rw [hp s0 m0 him0]; exact hm0
  -- the dropWhile part is non-empty
  have hmlast_mem : mlast ∈ m0 :: ms' := List.mem_of_mem_getLast? hlast
  have hdwne : (m0 :: ms').dropWhile pim ≠ [] := by
    intro hnil
    have hall := List.dropWhile_eq_nil_iff.mp hnil mlast hmlast_mem
    rw [hpim] at hall
    have : mlast.stamp < t := of_decide_eq_true hall
    linarith
  -- decompose the dropWhile part
  rcases hA : (m0 :: ms').dropWhile pim with _ | ⟨m1, msA'⟩
  · exact absurd hA hdwne
  have hm1 : pim m1 = false := by
    have h := List.head?_dropWhile_not pim (m0 :: ms')
    rw [hA] at h
    simpa using h
  have hm1t : t ≤ m1.stamp := by
    rw [hpim] at hm1
    exact not_lt.mp (of_decide_eq_false hm1)
  -- corresponding decomposition of the states
  rw [hA] at hdw
  rcases hA2 : (s0 :: sts').dropWhile pst with _ | ⟨s1, stsA'⟩
  · rw [hA2] at hdw; simp at hdw
  rw [hA2] at hdw
  simp only [List.map_cons, List.cons.injEq] at hdw
  obtain ⟨hs1imu, hdw'⟩ := hdw
  -- the takeWhile segments and their last elements
  have hstsBcons : (s0 :: sts').takeWhile pst = s0 :: sts'.takeWhile pst :=
    List.takeWhile_cons_of_pos hs0
  have hmsBcons : (m0 :: ms').takeWhile pim = m0 :: ms'.takeWhile pim :=
    List.takeWhile_cons_of_pos hm0
  obtain ⟨sB, hsB⟩ : ∃ sB, ((s0 :: sts').takeWhile pst).getLast? = some sB := by
    rw [hstsBcons]
    exact Option.isSome_iff_exists.mp (List.getLast?_isSome.mpr (by simp))
  obtain ⟨mB, hmB⟩ : ∃ mB, ((m0 :: ms').takeWhile pim).getLast? = some mB := by
    rw [hmsBcons]
    exact Option.isSome_iff_exists.mp (List.getLast?_isSome.mpr (by simp))
  have hsBimu : sB.imu = some mB := by
    have h := congrArg List.getLast? htw
    rw [List.getLast?_map, List.getLast?_map, hsB, hmB] at h
    simpa using h
  have hmBt : mB.stamp < t := by
    have hmem : mB ∈ (m0 :: ms').takeWhile pim := List.mem_of_mem_getLast? hmB
    have := List.mem_takeWhile_imp hmem
    rw [hpim] at this
    exact of_decide_eq_true this
  -- last element of the whole chain
  obtain ⟨slast, hslast⟩ : ∃ s, (s0 :: sts').getLast? = some s :=
    Option.isSome_iff_exists.mp (List.getLast?_isSome.mpr (by simp))
  have hslastimu : slast.imu = some mlast := by
    have h := congrArg List.getLast? him
    rw [List.getLast?_map, List.getLast?_map, hslast, hlast] at h
    simpa using h
  -- facts about each scrutinee of the unfolded split
  have hHead : (List.map some (s0 :: sts')).head? = some (some s0) := by simp
  have hng1 : ¬ (t < m0.stamp) := by linarith
  have hJoin : ((List.map some (s0 :: sts')).getLast?.bind fun a => a) =
      some slast := by
    rw [List.getLast?_map, hslast]; rfl
  have hng2 : ¬ (mlast.stamp < t) := not_lt.mpr htl
  have hBefore : (List.map some (s0 :: sts')).takeWhile
      (fun os => stateStampLt os t) = List.map some
        ((s0 :: sts').takeWhile pst) := by
    rw [List.takeWhile_map]; rfl
  have hAfter : (List.map some (s0 :: sts')).dropWhile
      (fun os => stateStampLt os t) = List.map some
        ((s0 :: sts').dropWhile pst) := by
    rw [List.dropWhile_map]; rfl
  have hBlast : (List.map some ((s0 :: sts').takeWhile pst)).getLast? =
      some (some sB) := by
    rw [List.getLast?_map, hsB]; rfl
  have hAhead : (List.map some ((s0 :: sts').dropWhile pst)).head? =
      some (some s1) := by
    rw [hA2]; simp
  simp only [Propagation.split, hst, hHead, him0, if_neg hng1, hJoin,
    hslastimu, if_neg hng2, hBefore, hAfter, hBlast, hAhead, hsBimu, hs1imu,
    if_pos hmBt]
  have hJoin2 : (List.map some (s0 :: sts')).getLast?.join = some slast := by
    rw [List.getLast?_map, hslast]; rfl
  have hng2' : ¬ (t > mlast.stamp) := hng2
  simp only [hJoin2, hslastimu, if_neg hng2']
  -- the zero-order-hold extension of the "to" propagation succeeds
  have hheadB : (Propagation.ofStates
      (List.map some ((s0 :: sts').takeWhile pst)) p.first_state_idx
      (some c)).states.head? = some (some s0) := by
    simp [Propagation.ofStates, hstsBcons]
  have hlastB : (Propagation.ofStates
      (List.map some ((s0 :: sts').takeWhile pst)) p.first_state_idx
      (some c)).states.getLast? = some (some sB) := hBlast
  obtain ⟨stN, hstN, haddeq⟩ := addImuMeasurement_success _ s0 sB mB
    ⟨t, m1.frame_id, m1.lin_acc, m1.ang_vel⟩ hheadB hlastB hsBimu hmBt
  rw [haddeq]
  -- shared timestamp bookkeeping
  have htakelt : (List.map Imu.stamp (m0 :: ms')).takeWhile
      (fun s => decide (s < t)) =
      List.map Imu.stamp ((m0 :: ms').takeWhile pim) := by
    rw [List.takeWhile_map]; rfl
  have hdroplt : (List.map Imu.stamp (m0 :: ms')).dropWhile
      (fun s => decide (s < t)) =
      List.map Imu.stamp ((m0 :: ms').dropWhile pim) := by
    rw [List.dropWhile_map]; rfl
  have hsplit_stamps : List.map Imu.stamp (m0 :: ms') =
      List.map Imu.stamp ((m0 :: ms').takeWhile pim) ++
        List.map Imu.stamp ((m0 :: ms').dropWhile pim) := by
    rw [← List.map_append, List.takeWhile_append_dropWhile]
  have hallB : ∀ x ∈ List.map Imu.stamp ((m0 :: ms').takeWhile pim),
      decide (x ≤ t) = true := by
    intro x hx
    obtain ⟨m, hm, rfl⟩ := List.mem_map.mp hx
    have hx2 := List.mem_takeWhile_imp hm
    rw [hpim] at hx2
    have := of_decide_eq_true hx2
    simp only [decide_eq_true_eq]
    linarith
  have hchainA : List.Chain' (· < ·)
      (List.map Imu.stamp (m1 :: msA')) := by
    apply hch.suffix
    exact (hA ▸ List.dropWhile_suffix pim).map _
  have htoT : chainStamps (List.map some ((s0 :: sts').takeWhile pst) ++
      [some stN]) =
      List.map some ((List.map Imu.stamp (m0 :: ms')).takeWhile
        (fun s => decide (s < t)) ++ [t]) := by
    rw [chainStamps_append, chainStamps_of_corr htw, htakelt,
      List.map_append]
    simp [chainStamps, stampOfEntry, hstN]
  have hcorrA : List.map State.imu (s1 :: stsA') =
      List.map some (m1 :: msA') := by
    simp [hs1imu, hdw']
  by_cases hcase : t < m1.stamp
  · -- t strictly before the next sample: the "from" chain is regenerated
    rw [if_pos hcase, hA2]
    have hchainFrom : List.Chain' (· < ·)
        ((⟨t, m1.frame_id, m1.lin_acc, m1.ang_vel⟩ : Imu).stamp ::
          List.map Imu.stamp (m1 :: msA')) := by
      simpa [List.chain'_cons] using And.intro hcase hchainA
    obtain ⟨news, hnews, _, hfold⟩ := replay_fold_corr (s1 :: stsA')
      (m1 :: msA')
      (Propagation.ofState
        { odom_frame_id := stN.odom_frame_id, I_p_IB := stN.I_p_IB,
          R_IB := stN.R_IB, I_v_IB := stN.I_v_IB, imu := stN.imu,
          integrator := stN.integrator.resetIntegrationAndSetBias
            stN.integrator.biasHat,
          baro_height_bias := stN.baro_height_bias }
        c p.last_state_idx)
      _ _ ⟨t, m1.frame_id, m1.lin_acc, m1.ang_vel⟩ hcorrA rfl rfl hstN
      hchainFrom
    have hdrople : (List.map Imu.stamp (m0 :: ms')).dropWhile
        (fun s => decide (s ≤ t)) = List.map Imu.stamp (m1 :: msA') := by
      rw [hsplit_stamps, List.dropWhile_append_of_pos hallB, hA,
        List.map_cons, List.dropWhile_cons_of_neg
          (by simpa using not_le.mpr hcase)]
    have hallA : ∀ x ∈ List.map Imu.stamp (m1 :: msA'), t < x := by
      intro x hx
      rw [List.map_cons] at hx
      rcases List.mem_cons.mp hx with rfl | hx'
      · exact hcase
      · have hpair := List.chain'_iff_pairwise.mp hchainA
        rw [List.map_cons] at hpair
        exact lt_trans hcase (List.rel_of_pairwise_cons hpair hx')
    have hnotmem : t ∉ List.map Imu.stamp (m0 :: ms') := by
      rw [hsplit_stamps]
      intro hmem
      rcases List.mem_append.mp hmem with hmB' | hmA'
      · obtain ⟨m, hm, heq⟩ := List.mem_map.mp hmB'
        have h2 := List.mem_takeWhile_imp hm
        rw [hpim] at h2
        have h3 : m.stamp < t := of_decide_eq_true h2
        rw [heq] at h3
        exact absurd h3 (lt_irrefl t)
      · rw [hA] at hmA'
        exact absurd (hallA t hmA') (lt_irrefl t)
    simp only [Propagation.ofStates, Propagation.getLatestState,
      List.getLast?_concat, Option.join, Option.some_bind, id_eq]
    rw [hfold]
    refine ⟨_, _, rfl, ?_, ?_, ?_, ?_⟩
    · exact htoT
    · rw [chainStamps_append, chainStamps_of_corr hnews, hdrople]
      simp [chainStamps, stampOfEntry, hstN, Propagation.ofState,
        Propagation.ofStates]
    · intro hmem
      exact absurd hmem hnotmem
    · intro _
      rw [chainStamps_append, chainStamps_append, chainStamps_of_corr htw,
        chainStamps_of_corr hnews, htakelt, hdroplt, hA]
      simp [chainStamps, stampOfEntry, hstN, Propagation.ofState,
        Propagation.ofStates]
  · -- t coincides with the next sample's timestamp: the suffix is reused
    rw [if_neg hcase]
    have hteq : t = m1.stamp := le_antisymm hm1t (not_lt.mp hcase)
    have hdrople : (List.map Imu.stamp (m0 :: ms')).dropWhile
        (fun s => decide (s ≤ t)) = List.map Imu.stamp msA' := by
      rw [hsplit_stamps, List.dropWhile_append_of_pos hallB, hA,
        List.map_cons, List.dropWhile_cons_of_pos
          (by simp [← hteq])]
      cases hA' : msA' with
      | nil => simp
      | cons m2 rest =>
        rw [List.map_cons, List.dropWhile_cons_of_neg]
        have hlt : m1.stamp < m2.stamp := by
          have hc2 := hchainA
          rw [hA', List.map_cons, List.map_cons, List.chain'_cons] at hc2
          exact hc2.1
        simp only [decide_eq_true_eq]
        rw [hteq]
        exact not_le.mpr hlt
    have hmem : t ∈ List.map Imu.stamp (m0 :: ms') := by
      rw [hsplit_stamps, hA]
      exact List.mem_append.mpr (Or.inr (by simp [hteq]))
    simp only [Propagation.ofStates]
    refine ⟨_, _, rfl, ?_, ?_, ?_, ?_⟩
    · exact htoT
    · rw [hA2, chainStamps_of_corr hcorrA, hdrople]
      simp [hteq]
    · intro _
      rw [hA2, chainStamps_of_corr hcorrA]
      show chainStamps (List.map some (List.takeWhile pst (s0 :: sts')) ++
          [some stN]) ++
          (List.map some (List.map Imu.stamp (m1 :: msA'))).tail =
        List.map some (List.map Imu.stamp (m0 :: ms'))
      rw [htoT, htakelt]
      conv_rhs => rw [hsplit_stamps, hA]
      simp [hteq, List.map_append]
    · intro hnot
      exact absurd hmem hnot

/-- Witness for C2 (amended) at the literal chain with samples at t = 0, 1, 2
and boundary t = 3/2. -/
theorem split_timestamp_reconstruction_witness :
    ∃ toT fromT, exChain3.split (3 / 2) 9 = some (toT, fromT, 10) := by
  obtain ⟨toT, fromT, h, -⟩ := split_timestamp_reconstruction exChain3
    [exSt 0 1, exSt 1 2, exSt 2 3]
    [exImu 0 1 1, exImu 1 2 2, exImu 2 3 3] (exImu 0 1 1) (exImu 2 3 3)
    (3 / 2) 9 rfl rfl
    (by norm_num [exImu, List.chain'_cons, List.chain'_singleton]) rfl rfl
    (by norm_num [exImu]) (by norm_num [exImu])
  exact ⟨toT, fromT, h⟩

/-! ## Claim C2 (counterexample part) -/

/-- **C2, counterexample.** On the three-sample propagation with samples at
t = 0, 1, 2, the time t = 0 lies inside `[first.t, last.t]`, yet `split(0)`
fails: the claim "for every time t inside `[first.t, last.t]`, `split(t)`
succeeds" is false at the interval's left endpoint. -/
theorem split_at_zero_counterexample :
    chainStamps exProp3.states = [some 0, some 1, some 2] ∧
    exProp3.split 0 5 = none := by
  norm_num [exProp3, exProp1, Propagation.ofState, Propagation.ofStates,
    exState0, exImu, Propagation.addImuMeasurement,
    Integrator.integrateMeasurement, Integrator.predict, State.getNavState,
    exIntegrator, exBias, Vec3.add, Vec3.sub, Vec3.scale, Propagation.split,
    stateStampLt, List.takeWhile, List.dropWhile, chainStamps, stampOfEntry,
    State.imu]

/-! ## Claim C7 -/

/-- `filterMap` of an if-none-else-some function is `map` after `filter`. -/
theorem filterMap_ite_none {α β : Type} (pr : α → Prop) [DecidablePred pr]
    (g : α → β) :
    ∀ l : List α,
      (l.filterMap (fun a => if pr a then none else some (g a))) =
        (l.filter (fun a => !decide (pr a))).map g
  | [] => rfl
  | a :: l => by
    by_cases h : pr a <;>
      simp [List.filterMap_cons, List.filter_cons, h,
        filterMap_ite_none pr g l]

/-- A propagation carrying a closed last index, the extrinsic calibration,
and two detections: one at range 0.05 (below the 0.1 threshold) and one at
range 0.5. -/
def exDopplerProp : Propagation :=
  { states := [some (exSt 0 1)], first_state_idx := 0,
    last_state_idx := some 3,
    cfar_detections := some [⟨1 / 20, 0, 0, 7⟩, ⟨1 / 2, 0, 0, 8⟩],
    B_T_BR := some () }

/-- **C7.** In `addDopplerFactors`, every detection whose position vector has
norm below the 0.1 threshold (equivalently, squared norm below 1/100) is
skipped without aborting the loop, and every detection at or above the
threshold contributes exactly one one-dimensional residual factor to the
pending graph. -/
theorem addDopplerFactors_threshold (p : Propagation) (graph : List Factor)
    (idx : Nat) (dets : List CfarDetection) (st : State) (m : Imu)
    (hlast : p.getLastStateIdx = some idx)
    (hdet : p.cfar_detections = some dets)
    (hcal : p.B_T_BR = some ())
    (hst : p.getLatestState = some st)
    (hm : st.imu = some m) :
    Optimization.addDopplerFactors p graph =
      graph ++ (dets.filter (fun d =>
          !decide (Vec3.normSq ⟨d.x, d.y, d.z⟩ < 1 / 100))).map
        (fun d => Factor.doppler idx d.velocity) ∧
    (Optimization.addDopplerFactors p graph).length =
      graph.length + (dets.filter (fun d =>
        !decide (Vec3.normSq ⟨d.x, d.y, d.z⟩ < 1 / 100))).length := by
  have h : Optimization.addDopplerFactors p graph =
      graph ++ (dets.filter (fun d =>
          !decide (Vec3.normSq ⟨d.x, d.y, d.z⟩ < 1 / 100))).map
        (fun d => Factor.doppler idx d.velocity) := by
    simp only [Optimization.addDopplerFactors, hlast, hdet, hcal, hst, hm]
    rw [filterMap_ite_none]
  exact ⟨h, by rw [h]; simp⟩

/-- Witness for C7: the 0.05-range detection is rejected, the 0.5-range
detection produces exactly one factor. -/
theorem addDopplerFactors_threshold_witness :
    Optimization.addDopplerFactors exDopplerProp [] =
      [Factor.doppler 3 8] ∧
    (Optimization.addDopplerFactors exDopplerProp []).length = 1 := by
  have h := (addDopplerFactors_threshold exDopplerProp [] 3
    [⟨1 / 20, 0, 0, 7⟩, ⟨1 / 2, 0, 0, 8⟩] (exSt 0 1) (exImu 0 1 1)
    rfl rfl rfl rfl rfl).1
  rw [h]
  norm_num [Vec3.normSq, List.filter]

/-! ## Claim C4 -/

/-- **C4.** `solve` called while a solve is running, or while a completed
result has not yet been collected, returns failure with no side effects (the
whole coordinator state — in particular the pending graph increment — is
returned unchanged); symmetrically `getResult` called while Solving, before
any solve, or again after its result was already collected, returns failure
without modifying the caller's propagation deque. -/
theorem concurrency_guards (o : Optimization)
    (props deque : List Propagation) :
    (o.running = true → o.solve props = (false, o, none)) ∧
    (o.joinable = true → o.solve props = (false, o, none)) ∧
    (o.running = true → o.getResult deque = (false, o, deque)) ∧
    (o.running = false → o.joinable = false →
      o.getResult deque = (false, o, deque)) ∧
    (∀ o' deque', o.getResult deque = (true, o', deque') →
      o'.getResult props = (false, o', props)) := by
  refine ⟨?_, ?_, ?_, ?_, ?_⟩
  · intro h; simp [Optimization.solve, h]
  · intro h
    by_cases hr : o.running <;> simp [Optimization.solve, h, hr]
  · intro h; simp [Optimization.getResult, h]
  · intro hr hj; simp [Optimization.getResult, hr, hj]
  · intro o' deque' h
    by_cases hr : o.running
    · simp [Optimization.getResult, hr] at h
    · by_cases hj : o.joinable
      · by_cases hn : o.new_result
        · simp only [Optimization.getResult, hr, hj, hn, Bool.false_eq_true,
            if_false, if_true, Bool.not_true, Bool.false_eq_true] at h
          obtain ⟨-, rfl, -⟩ := Prod.mk.injEq .. ▸ h
          simp [Optimization.getResult]
        · simp [Optimization.getResult, hr, hj, hn] at h
      · simp [Optimization.getResult, hr, hj] at h

/-- A coordinator holding a finished, uncollected (empty) result. -/
def exReady : Optimization :=
  { Optimization.mkIdle with joinable := true, new_result := true }

/-- Witness for C4: a running coordinator rejects `solve`, the fresh
coordinator rejects `getResult` (no solve was ever issued), and a second
`getResult` after collecting a result is rejected without touching the
deque. -/
theorem concurrency_guards_witness :
    ({ Optimization.mkIdle with running := true } : Optimization).solve [] =
      (false, { Optimization.mkIdle with running := true }, none) ∧
    Optimization.mkIdle.getResult [] =
      (false, Optimization.mkIdle, []) ∧
    Optimization.mkIdle.getResult [exChain3] =
      (false, Optimization.mkIdle, [exChain3]) := by
  refine ⟨(concurrency_guards _ [] []).1 rfl, ?_, ?_⟩
  · exact (concurrency_guards _ [] []).2.2.2.1 rfl rfl
  · exact (concurrency_guards exReady [exChain3] []).2.2.2.2
      Optimization.mkIdle [] rfl

/-! ## Claim C3 -/

/-- **C3, counterexample.** After a background cycle aborted by a solver
exception, the coordinator is not running and holds no result, yet a `solve`
call issued at that point returns failure (the finished thread has not been
joined): the claim's "a subsequent solve(...) call is accepted (returns
success), since no solve is in flight and no uncollected result exists" is
false on the concrete trace solve → solver exception → solve. -/
theorem solve_after_solver_exception_rejected :
    (Optimization.mkIdle.solve []).1 = true ∧
    ((Optimization.mkIdle.solve []).2.1.solveThreaded
        SolverOutcome.updateFail
        ((Optimization.mkIdle.solve []).2.2.getD
          { graph := [], values := [], stamps := [],
            propagations := [] })).running = false ∧
    ((Optimization.mkIdle.solve []).2.1.solveThreaded
        SolverOutcome.updateFail
        ((Optimization.mkIdle.solve []).2.2.getD
          { graph := [], values := [], stamps := [],
            propagations := [] })).new_result = false ∧
    ((Optimization.mkIdle.solve []).2.1.solveThreaded
        SolverOutcome.updateFail
        ((Optimization.mkIdle.solve []).2.2.getD
          { graph := [], values := [], stamps := [],
            propagations := [] })).solve [] =
      (false,
       (Optimization.mkIdle.solve []).2.1.solveThreaded
         SolverOutcome.updateFail
         ((Optimization.mkIdle.solve []).2.2.getD
           { graph := [], values := [], stamps := [],
             propagations := [] }),
       none) :=
  ⟨rfl, rfl, rfl, rfl⟩

/-- **C3 (amended).** If the background task's solver throws (in `update` or
`calculateEstimate`), the coordinator stores no result and stops running; a
`solve` call issued before the failed cycle's thread is joined returns
failure; `getResult` joins the thread, reports no new result, and leaves the
caller's propagation deque unmodified; and the next `solve` after that
`getResult` is accepted. -/
theorem solveThreaded_failure_recovery (o : Optimization)
    (props props' deque : List Propagation) (outcome : SolverOutcome)
    (hr : o.running = false) (hj : o.joinable = false)
    (hn : o.new_result = false)
    (hout : outcome = SolverOutcome.updateFail ∨
      outcome = SolverOutcome.estimateFail) :
    ∃ o1 task, o.solve props = (true, o1, some task) ∧
      (o1.solveThreaded outcome task).running = false ∧
      (o1.solveThreaded outcome task).new_result = false ∧
      (o1.solveThreaded outcome task).solve props' =
        (false, o1.solveThreaded outcome task, none) ∧
      ∃ o3, (o1.solveThreaded outcome task).getResult deque =
          (false, o3, deque) ∧ o3.new_result = false ∧
        (o3.solve props').1 = true := by
  have hsolve : o.solve props =
      (true,
       { o with running := true, joinable := true, new_graph := [],
                new_values := [], new_timestamps := [] },
       some { graph := o.new_graph, values := o.new_values,
              stamps := o.new_timestamps, propagations := props }) := by
    simp [Optimization.solve, hr, hj]
  refine ⟨_, _, hsolve, ?_⟩
  rcases hout with rfl | rfl <;>
    simp [Optimization.solveThreaded, Optimization.solve,
      Optimization.getResult, hn]

/-- Witness for C3 (amended), on the concrete trace starting from the idle
coordinator. -/
theorem solveThreaded_failure_recovery_witness :
    ∃ o1 task, Optimization.mkIdle.solve [] = (true, o1, some task) ∧
      (o1.solveThreaded SolverOutcome.updateFail task).running = false ∧
      (o1.solveThreaded SolverOutcome.updateFail task).new_result = false ∧
      (o1.solveThreaded SolverOutcome.updateFail task).solve [] =
        (false, o1.solveThreaded SolverOutcome.updateFail task, none) ∧
      ∃ o3, (o1.solveThreaded SolverOutcome.updateFail task).getResult [] =
          (false, o3, []) ∧ o3.new_result = false ∧
        (o3.solve []).1 = true :=
  solveThreaded_failure_recovery Optimization.mkIdle [] [] []
    SolverOutcome.updateFail rfl rfl rfl (Or.inl rfl)

end Rio
